import Mathlib

/-!
# go-api/handlers: a shallow embedding of `users.go`

The package keeps a process-wide `map[int]User` and exposes two HTTP handlers,
`GetUser` and `CreateUser`.  The embedding makes the map an explicit argument
and result of each handler, and a response a plain record (status code, content
type, payload).

Conventions of the embedding
* Go `string` values are Lean `String`s.  The handlers look at strings only
  through `== ""`, `==`, `strconv.Atoi` and `strings.TrimSpace`; the JSON
  decoder only ever produces valid UTF-8.  `ValidateEmail` measures and indexes
  its argument in bytes, so it works on the UTF-8 encoding of the string.
* Go `int` is the 64-bit signed integer of the usual targets.  `strconv.Atoi`
  checks its result against that range, and the check is modelled.  The one
  arithmetic operation of the handlers, `len(users) + 1`, is computed in `Int`:
  a Go map with `2^63 - 1` entries does not fit in a 64-bit address space, so
  the addition never wraps.
* `encoding/json` is an external codec.  A request body is represented by the
  outcome of `json.NewDecoder(r.Body).Decode(&user)`: `none` when `err != nil`,
  `some user` otherwise.  A JSON response body is represented by the `User`
  that is handed to the encoder.
-/

namespace Handlers

/-- The record `type User struct { ID int; Name string; Email string }`. -/
structure User where
  ID : Int
  Name : String
  Email : String
  deriving DecidableEq, Repr

/-- The type of the package variable `users`, a `map[int]User`: a finite map with
unique keys.  The order of `entries` is one of the iteration orders of the map. -/
abbrev Store := AList (fun _ : Int => User)

/-- The initial value of the package variable `users`. -/
def users : Store :=
  AList.insert 1 ⟨1, "Alice", "alice@example.com"⟩
    (AList.insert 2 ⟨2, "Bob", "bob@example.com"⟩ ∅)

/-- Go `len(users)`. -/
def len (s : Store) : Nat := s.entries.length

/-- What a handler writes as the body: a plain-text message (through
`http.Error`) or a `User` handed to `json.NewEncoder(w).Encode`. -/
inductive Payload where
  | text (msg : String)
  | json (u : User)
  deriving DecidableEq, Repr

/-- The observable part of what a handler writes to the `http.ResponseWriter`. -/
structure Response where
  status : Nat
  contentType : String
  payload : Payload
  deriving DecidableEq, Repr

def StatusOK : Nat := 200
def StatusCreated : Nat := 201
def StatusBadRequest : Nat := 400
def StatusNotFound : Nat := 404
def StatusConflict : Nat := 409

/-- Go `http.Error(w, msg, code)`: a plain-text reply with the given code. -/
def httpError (msg : String) (code : Nat) : Response :=
  ⟨code, "text/plain; charset=utf-8", Payload.text msg⟩

/-- The two ways `strconv.Atoi` fails (`strconv.ErrSyntax`, `strconv.ErrRange`). -/
inductive NumError where
  | ErrSyntax
  | ErrRange
  deriving DecidableEq, Repr

/-- Number of bits of a Go `int` (`strconv.IntSize`). -/
def intSize : Nat := 64

/-- The largest Go `int`. -/
def maxInt : Int := 2 ^ (intSize - 1) - 1

/-- The value of a run of decimal digits, most significant first. -/
def digitsValue (ds : List Char) : Nat :=
  ds.foldl (fun n ch => n * 10 + (ch.toNat - '0'.toNat)) 0

/-- Go `strconv.Atoi(s)`: an optional sign, then one or more ASCII decimal digits,
and a value that fits a Go `int`. -/
def Atoi (s : String) : Except NumError Int :=
  match s.data with
  | [] => Except.error NumError.ErrSyntax
  | c :: cs =>
    let neg : Bool := c == '-'
    let ds : List Char := if c == '-' || c == '+' then cs else c :: cs
    if ds.isEmpty then Except.error NumError.ErrSyntax
    else if !ds.all Char.isDigit then Except.error NumError.ErrSyntax
    else
      let un : Nat := digitsValue ds
      if !neg && un ≥ 2 ^ (intSize - 1) then Except.error NumError.ErrRange
      else if neg && un > 2 ^ (intSize - 1) then Except.error NumError.ErrRange
      else Except.ok (if neg then -(un : Int) else (un : Int))

/-- Go `strconv.Itoa(n)`, the decimal rendering of an integer. -/
def Itoa (n : Int) : String :=
  match n with
  | Int.ofNat m => Nat.repr m
  | Int.negSucc m => "-" ++ Nat.repr (m + 1)

/-- Go `unicode.IsSpace`: the Latin-1 spaces and the code points with the
Unicode White_Space property. -/
def isSpace (c : Char) : Bool :=
  let n := c.toNat
  n == 0x09 || n == 0x0A || n == 0x0B || n == 0x0C || n == 0x0D || n == 0x20 ||
  n == 0x85 || n == 0xA0 || n == 0x1680 || (0x2000 ≤ n && n ≤ 0x200A) ||
  n == 0x2028 || n == 0x2029 || n == 0x202F || n == 0x205F || n == 0x3000

/-- Go `strings.TrimSpace(s)`: `s` without its leading and trailing white space. -/
def TrimSpace (s : String) : String :=
  ⟨((s.data.dropWhile isSpace).reverse.dropWhile isSpace).reverse⟩

/-- The handler `GetUser`, with `idStr = r.PathValue("id")`.  The store is
returned as the handler leaves it. -/
def GetUser (s : Store) (idStr : String) : Response × Store :=
  if idStr = "" then
    (httpError "missing user id" StatusBadRequest, s)
  else
    match Atoi idStr with
    | Except.error _ => (httpError "invalid user id" StatusBadRequest, s)
    | Except.ok id =>
      if id ≤ 0 then
        (httpError "user id must be positive" StatusBadRequest, s)
      else
        match s.lookup id with
        | none => (httpError "user not found" StatusNotFound, s)
        | some user => (⟨StatusOK, "application/json", Payload.json user⟩, s)

/-- The loop `for _, existing := range users { if existing.Email == email ... }`:
whether some stored user has exactly this email. -/
def emailExists (s : Store) (email : String) : Bool :=
  s.entries.any (fun existing => existing.2.Email == email)

/-- The handler `CreateUser`; `decoded` is the outcome of decoding the request
body into `user` (`none` when the decoder reports an error). -/
def CreateUser (s : Store) (decoded : Option User) : Response × Store :=
  match decoded with
  | none => (httpError "invalid request body" StatusBadRequest, s)
  | some user =>
    if TrimSpace user.Name = "" then
      (httpError "name is required" StatusBadRequest, s)
    else if TrimSpace user.Email = "" then
      (httpError "email is required" StatusBadRequest, s)
    else if emailExists s user.Email then
      (httpError "email already exists" StatusConflict, s)
    else
      let user : User := { user with ID := (len s : Int) + 1 }
      (⟨StatusCreated, "application/json", Payload.json user⟩, s.insert user.ID user)

/-- A request to the service, as the router hands it to a handler. -/
inductive Request where
  | get (idStr : String)
  | create (decoded : Option User)

/-- One request served on a store. -/
def serve (s : Store) : Request → Response × Store
  | Request.get idStr => GetUser s idStr
  | Request.create decoded => CreateUser s decoded

/-- The stores the process can hold: the initial one, and what any request
leaves behind. -/
inductive Reachable : Store → Prop where
  | init : Reachable users
  | step {s : Store} (r : Request) : Reachable s → Reachable (serve s r).2

/-- The keys of the store are exactly `1, ..., len(store)`. -/
def Contiguous (s : Store) : Prop :=
  ∀ k : Int, k ∈ s ↔ 1 ≤ k ∧ k ≤ (len s : Int)

/-- Every key is the `ID` of the user stored under it. -/
def KeysMatchIDs (s : Store) : Prop :=
  ∀ k u, s.lookup k = some u → u.ID = k

/-- No two entries under different keys carry the same email. -/
def EmailsUnique (s : Store) : Prop :=
  ∀ k₁ k₂ u₁ u₂, s.lookup k₁ = some u₁ → s.lookup k₂ = some u₂ → k₁ ≠ k₂ →
    u₁.Email ≠ u₂.Email

/-- The bytes of a Go string: its UTF-8 encoding.  Go's `len`, `strings.Index` and
`strings.LastIndex` count and index bytes. -/
def bytes (s : String) : List Nat :=
  s.data.flatMap (fun c => (String.utf8EncodeChar c).map UInt8.toNat)

/-- Go `len(s)` for a string `s`, an `int`. -/
def strLen (s : String) : Int := ((bytes s).length : Int)

/-- The index of the first byte equal to `b`, or `-1` (Go `strings.IndexByte`). -/
def indexByte (b : Nat) : List Nat → Int
  | [] => -1
  | x :: xs =>
    if x = b then 0
    else if indexByte b xs < 0 then -1 else indexByte b xs + 1

/-- The index of the last byte equal to `b`, or `-1` (Go `strings.LastIndexByte`). -/
def lastIndexByte (b : Nat) : List Nat → Int
  | [] => -1
  | x :: xs =>
    if 0 ≤ lastIndexByte b xs then lastIndexByte b xs + 1
    else if x = b then 0 else -1

/-- Go `strings.Index(s, substr)` for a `substr` of one ASCII character, the way
`users.go` calls it; Go serves this case by a byte search. -/
def Index (s : String) (substr : Char) : Int := indexByte substr.toNat (bytes s)

/-- Go `strings.LastIndex(s, substr)` for a `substr` of one ASCII character. -/
def LastIndex (s : String) (substr : Char) : Int := lastIndexByte substr.toNat (bytes s)

/-- The function `ValidateEmail`. -/
def ValidateEmail (email : String) : Bool :=
  if strLen email < 3 then false
  else
    let atIndex := Index email '@'
    if atIndex < 1 then false
    else
      let dotIndex := LastIndex email '.'
      if dotIndex < atIndex + 2 then false
      else if dotIndex ≥ strLen email - 1 then false
      else true

/-- `ValidateEmail` with its first statement, the `len(email) < 3` guard, removed. -/
def ValidateEmailNoLenGuard (email : String) : Bool :=
  let atIndex := Index email '@'
  if atIndex < 1 then false
  else
    let dotIndex := LastIndex email '.'
    if dotIndex < atIndex + 2 then false
    else if dotIndex ≥ strLen email - 1 then false
    else true

/-- An operand of `fmt.Sprintf`: `users.go` passes an `int` or a `string`. -/
inductive Arg where
  | int (n : Int)
  | str (s : String)

/-- The Go type name of an operand, as `fmt` prints it in its error forms. -/
def Arg.typeName : Arg → String
  | Arg.int _ => "int"
  | Arg.str _ => "string"

/-- The default (`%v`) rendering of an operand. -/
def Arg.value : Arg → String
  | Arg.int n => Itoa n
  | Arg.str s => s

/-- One verb applied to one operand: `%d` of an `int`, `%s` of a `string`, `%v` of
either; anything else is rendered as `fmt` renders a verb that does not fit. -/
def formatVerb (verb : Char) (a : Arg) : String :=
  match a with
  | Arg.int n =>
    if verb = 'd' ∨ verb = 'v' then Itoa n
    else "%!" ++ String.singleton verb ++ "(int=" ++ Itoa n ++ ")"
  | Arg.str s =>
    if verb = 's' ∨ verb = 'v' then s
    else "%!" ++ String.singleton verb ++ "(string=" ++ s ++ ")"

/-- The scan of `fmt.Sprintf` over the format, for formats without flags, width or
precision: text is copied, `%%` is a percent sign, and each other verb takes the
next operand.  Missing and surplus operands are reported the way `fmt` does. -/
def doPrintf : List Char → List Arg → String
  | [], [] => ""
  | [], a :: rest =>
    "%!(EXTRA " ++ ", ".intercalate ((a :: rest).map fun x => x.typeName ++ "=" ++ x.value) ++ ")"
  | c :: fmt, args =>
    if c ≠ '%' then String.singleton c ++ doPrintf fmt args
    else
      match fmt with
      | [] => "%!(NOVERB)" ++ doPrintf [] args
      | verb :: fmt' =>
        if verb = '%' then "%" ++ doPrintf fmt' args
        else
          match args with
          | [] => "%!" ++ String.singleton verb ++ "(MISSING)" ++ doPrintf fmt' []
          | a :: rest => formatVerb verb a ++ doPrintf fmt' rest

/-- Go `fmt.Sprintf(format, args...)`. -/
def Sprintf (format : String) (args : List Arg) : String := doPrintf format.data args

/-- The function `FormatUserDisplay`. -/
def FormatUserDisplay (u : User) : String :=
  if u.Name = "" then Sprintf "User #%d (no name)" [Arg.int u.ID]
  else Sprintf "%s <%s>" [Arg.str u.Name, Arg.str u.Email]

/-- A store that no run of the service produces: the single entry `2 ↦ Bob`.  Its
keys are not `1, ..., len`. -/
def bobOnly : Store := AList.insert 2 ⟨2, "Bob", "bob@example.com"⟩ ∅

/-! ## Auxiliary facts about `Atoi` and decimal rendering -/

theorem isDigit_ne_sign {c : Char} (h : c.isDigit = true) : c ≠ '-' ∧ c ≠ '+' := by
  constructor <;> rintro rfl <;> revert h <;> decide

theorem Atoi_unsigned (c : Char) (cs : List Char) (hd : (c :: cs).all Char.isDigit = true) :
    Atoi ⟨c :: cs⟩ =
      if digitsValue (c :: cs) ≥ 2 ^ (intSize - 1) then Except.error NumError.ErrRange
      else Except.ok (digitsValue (c :: cs) : Int) := by
  have hc : c.isDigit = true := by
    simp only [List.all_cons, Bool.and_eq_true] at hd
    exact hd.1
  obtain ⟨h1, h2⟩ := isDigit_ne_sign hc
  have hall : ¬ ∃ x ∈ c :: cs, x.isDigit = false := by
    rintro ⟨x, hx, hx2⟩
    have := List.all_eq_true.mp hd x hx
    simp [hx2] at this
  simp only [Atoi]
  simp only [List.mem_cons, exists_eq_or_imp] at hall
  simp [h1, h2]
  intro h
  exact absurd h hall

/-- On an unsigned run of digits whose value fits a Go `int`, `Atoi` returns that value. -/
theorem Atoi_of_digits (s : String) (hne : s ≠ "") (hd : s.data.all Char.isDigit = true)
    (hr : (digitsValue s.data : Int) ≤ maxInt) : Atoi s = Except.ok (digitsValue s.data : Int) := by
  obtain ⟨data⟩ := s
  cases data with
  | nil => exact absurd rfl hne
  | cons c cs =>
    have hlt : ¬ (digitsValue (c :: cs) ≥ 2 ^ (intSize - 1)) := by
      simp only [maxInt, intSize] at hr
      simp only [intSize]
      omega
    rw [Atoi_unsigned c cs hd, if_neg hlt]

/-- On an unsigned run of digits whose value does not fit a Go `int`, `Atoi` fails. -/
theorem Atoi_of_digits_big (s : String) (hne : s ≠ "") (hd : s.data.all Char.isDigit = true)
    (hr : maxInt < (digitsValue s.data : Int)) : Atoi s = Except.error NumError.ErrRange := by
  obtain ⟨data⟩ := s
  cases data with
  | nil => exact absurd rfl hne
  | cons c cs =>
    have hlt : digitsValue (c :: cs) ≥ 2 ^ (intSize - 1) := by
      simp only [maxInt, intSize] at hr
      simp only [intSize]
      omega
    rw [Atoi_unsigned c cs hd, if_pos hlt]

theorem digitChar_spec (m : Nat) (h : m < 10) :
    (Nat.digitChar m).isDigit = true ∧ (Nat.digitChar m).toNat - '0'.toNat = m := by
  interval_cases m <;> decide

theorem toDigitsCore_append (fuel : Nat) : ∀ (n : Nat) (ds : List Char),
    Nat.toDigitsCore 10 fuel n ds = Nat.toDigitsCore 10 fuel n [] ++ ds := by
  induction fuel with
  | zero => intro n ds; simp [Nat.toDigitsCore]
  | succ f ih =>
    intro n ds
    simp only [Nat.toDigitsCore]
    by_cases h : n / 10 = 0
    · simp [h]
    · simp only [h, if_false]
      rw [ih (n / 10) (Nat.digitChar (n % 10) :: ds), ih (n / 10) [Nat.digitChar (n % 10)]]
      simp

theorem digitsValue_append_singleton (l : List Char) (c : Char) :
    digitsValue (l ++ [c]) = digitsValue l * 10 + (c.toNat - '0'.toNat) := by
  simp [digitsValue, List.foldl_append]

/-- The digits `Nat.toDigits` produces: at least one, all decimal, and worth `n`. -/
theorem toDigitsCore_spec (fuel : Nat) : ∀ n : Nat, n < fuel →
    Nat.toDigitsCore 10 fuel n [] ≠ [] ∧
    (Nat.toDigitsCore 10 fuel n []).all Char.isDigit = true ∧
    digitsValue (Nat.toDigitsCore 10 fuel n []) = n := by
  induction fuel with
  | zero => intro n h; omega
  | succ f ih =>
    intro n hn
    have hd := digitChar_spec (n % 10) (Nat.mod_lt _ (by decide))
    simp only [Nat.toDigitsCore]
    by_cases h : n / 10 = 0
    · have hn10 : n % 10 = n := by omega
      simp only [h, if_true]
      refine ⟨by simp, by simp [hd.1], ?_⟩
      simp only [digitsValue, List.foldl_cons, List.foldl_nil]
      omega
    · simp only [h, if_false]
      rw [toDigitsCore_append]
      obtain ⟨h1, h2, h3⟩ := ih (n / 10) (by omega)
      refine ⟨by simp, ?_, ?_⟩
      · simp only [List.all_append, h2, List.all_cons, hd.1, List.all_nil, Bool.and_self]
      · rw [digitsValue_append_singleton, h3, hd.2]
        omega

theorem repr_spec (n : Nat) :
    Nat.repr n ≠ "" ∧ (Nat.repr n).data.all Char.isDigit = true ∧
    digitsValue (Nat.repr n).data = n := by
  obtain ⟨h1, h2, h3⟩ := toDigitsCore_spec (n + 1) n (Nat.lt_succ_self n)
  refine ⟨?_, h2, h3⟩
  intro h
  apply h1
  have : (Nat.repr n).data = ("" : String).data := by rw [h]
  exact this

/-- Reading back the decimal rendering of a non-negative `int`. -/
theorem Atoi_Itoa (n : Int) (h0 : 0 ≤ n) (hmax : n ≤ maxInt) : Atoi (Itoa n) = Except.ok n := by
  obtain ⟨m, rfl⟩ := Int.eq_ofNat_of_zero_le h0
  obtain ⟨h1, h2, h3⟩ := repr_spec m
  have : Itoa (m : Int) = Nat.repr m := rfl
  rw [this, Atoi_of_digits _ h1 h2 (by rw [h3]; exact hmax), h3]

/-! ## Auxiliary facts about the store -/

theorem emailExists_iff (s : Store) (email : String) :
    emailExists s email = true ↔ ∃ k u, s.lookup k = some u ∧ u.Email = email := by
  simp only [emailExists, List.any_eq_true, beq_iff_eq]
  constructor
  · rintro ⟨⟨k, u⟩, hmem, he⟩
    exact ⟨k, u, AList.mem_lookup_iff.mpr hmem, he⟩
  · rintro ⟨k, u, hl, he⟩
    exact ⟨⟨k, u⟩, AList.mem_lookup_iff.mp hl, he⟩

theorem emailExists_eq_false_iff (s : Store) (email : String) :
    emailExists s email = false ↔ ∀ k u, s.lookup k = some u → u.Email ≠ email := by
  rw [← Bool.not_eq_true, emailExists_iff]
  constructor
  · intro h k u hl he
    exact h ⟨k, u, hl, he⟩
  · rintro h ⟨k, u, hl, he⟩
    exact h k u hl he

/-- What `GetUser` does once `Atoi` has accepted the ID. -/
theorem GetUser_of_Atoi_ok (s : Store) (idStr : String) (n : Int)
    (hne : idStr ≠ "") (h : Atoi idStr = Except.ok n) :
    GetUser s idStr =
      if n ≤ 0 then (httpError "user id must be positive" StatusBadRequest, s)
      else match s.lookup n with
        | none => (httpError "user not found" StatusNotFound, s)
        | some user => (⟨StatusOK, "application/json", Payload.json user⟩, s) := by
  simp only [GetUser, if_neg hne, h]

theorem GetUser_of_Atoi_error (s : Store) (idStr : String) (e : NumError)
    (hne : idStr ≠ "") (h : Atoi idStr = Except.error e) :
    GetUser s idStr = (httpError "invalid user id" StatusBadRequest, s) := by
  simp only [GetUser, if_neg hne, h]

/-! ## GetUser -/

/-- C1 (as stated, refuted): the ID string `9223372036854775808` is non-empty, made
only of decimal digits and has a positive value that is no key of the seed store,
yet `GetUser` answers 400 "invalid user id" and not 404: the value does not fit a
Go `int`, so `strconv.Atoi` reports an error. -/
theorem GetUser_digits_beyond_int :
    ("9223372036854775808" : String) ≠ "" ∧
    ("9223372036854775808" : String).data.all Char.isDigit = true ∧
    0 < digitsValue ("9223372036854775808" : String).data ∧
    users.lookup (digitsValue ("9223372036854775808" : String).data : Int) = none ∧
    (GetUser users "9223372036854775808").1 = httpError "invalid user id" StatusBadRequest ∧
    (GetUser users "9223372036854775808").1.status = 400 := by
  decide

/-- C1 (amended): for every store and every non-empty ID string made only of decimal
digits whose value `n` satisfies `0 < n ≤ maxInt` (it fits a Go `int`), `GetUser`
answers 200 with exactly the user stored under `n` when `n` is a key of the store,
and 404 otherwise; it never answers 400. -/
theorem GetUser_numeric (s : Store) (idStr : String) (hne : idStr ≠ "")
    (hd : idStr.data.all Char.isDigit = true) (hpos : 0 < digitsValue idStr.data)
    (hfit : (digitsValue idStr.data : Int) ≤ maxInt) :
    (∀ u, s.lookup (digitsValue idStr.data : Int) = some u →
      (GetUser s idStr).1 = ⟨StatusOK, "application/json", Payload.json u⟩) ∧
    (s.lookup (digitsValue idStr.data : Int) = none →
      (GetUser s idStr).1 = httpError "user not found" StatusNotFound) ∧
    (GetUser s idStr).1.status ≠ StatusBadRequest := by
  have hget := GetUser_of_Atoi_ok s idStr _ hne (Atoi_of_digits idStr hne hd hfit)
  have hn : ¬ ((digitsValue idStr.data : Int) ≤ 0) := by omega
  rw [if_neg hn] at hget
  refine ⟨?_, ?_, ?_⟩
  · intro u hu
    rw [hget, hu]
  · intro hu
    rw [hget, hu]
  · rw [hget]
    cases s.lookup (digitsValue idStr.data : Int) <;>
      simp [httpError, StatusNotFound, StatusBadRequest, StatusOK]

/-- C1 (amended), on the seed store: the ID `1` gives 200 with Alice. -/
theorem GetUser_numeric_witness :
    ("1" : String) ≠ "" ∧ ("1" : String).data.all Char.isDigit = true ∧
    0 < digitsValue ("1" : String).data ∧ (digitsValue ("1" : String).data : Int) ≤ maxInt ∧
    (GetUser users "1").1 =
      ⟨StatusOK, "application/json", Payload.json ⟨1, "Alice", "alice@example.com"⟩⟩ :=
  ⟨by decide, by decide, by decide, by decide,
    (GetUser_numeric users "1" (by decide) (by decide) (by decide) (by decide)).1 _ (by decide)⟩

/-- C2: `GetUser` answers 400 "missing user id" when the ID is empty; otherwise 400
"invalid user id" when `strconv.Atoi` rejects it (bad syntax, or a value outside the
range of `int`); otherwise 400 "user id must be positive" when the parsed value is
`≤ 0`.  The empty string is also rejected by `Atoi`, so the first check shadows the
second.  The status is 400 in no other case. -/
theorem GetUser_bad_request (s : Store) (idStr : String) :
    (idStr = "" → (GetUser s idStr).1 = httpError "missing user id" StatusBadRequest) ∧
    Atoi "" = Except.error NumError.ErrSyntax ∧
    (idStr ≠ "" → ∀ e, Atoi idStr = Except.error e →
      (GetUser s idStr).1 = httpError "invalid user id" StatusBadRequest) ∧
    (idStr ≠ "" → ∀ n, Atoi idStr = Except.ok n → n ≤ 0 →
      (GetUser s idStr).1 = httpError "user id must be positive" StatusBadRequest) ∧
    ((GetUser s idStr).1.status = StatusBadRequest ↔
      idStr = "" ∨ (∃ e, Atoi idStr = Except.error e) ∨ ∃ n, Atoi idStr = Except.ok n ∧ n ≤ 0) := by
  refine ⟨?_, rfl, ?_, ?_, ?_⟩
  · intro h
    simp only [GetUser, if_pos h]
  · intro hne e he
    rw [GetUser_of_Atoi_error s idStr e hne he]
  · intro hne n hn hle
    rw [GetUser_of_Atoi_ok s idStr n hne hn, if_pos hle]
  · by_cases hne : idStr = ""
    · simp only [GetUser, if_pos hne, hne, true_or, iff_true]
      rfl
    · cases hA : Atoi idStr with
      | error e =>
        rw [GetUser_of_Atoi_error s idStr e hne hA]
        simp only [hne, false_or, Except.error.injEq, exists_eq', true_or, iff_true]
        rfl
      | ok n =>
        rw [GetUser_of_Atoi_ok s idStr n hne hA]
        by_cases hle : n ≤ 0
        · rw [if_pos hle]
          simp only [hne, false_or, Except.ok.injEq, exists_eq_left', hle, or_true, iff_true,
            reduceCtorEq, exists_false]
          rfl
        · rw [if_neg hle]
          have : ¬ (idStr = "" ∨ (∃ e, Except.ok n = (Except.error e : Except NumError Int)) ∨
              ∃ m, (Except.ok n : Except NumError Int) = Except.ok m ∧ m ≤ 0) := by
            rintro (h | ⟨e, h⟩ | ⟨m, h, hm⟩)
            · exact hne h
            · cases h
            · cases h
              exact hle hm
          simp only [this, iff_false]
          cases s.lookup n <;> simp [httpError, StatusNotFound, StatusBadRequest, StatusOK]

/-- C2 on concrete IDs: the empty ID, the non-numeric `abc`, a value beyond `int`,
and the non-positive `-5` and `0` are all answered 400, each with its own message. -/
theorem GetUser_bad_request_witness :
    (GetUser users "").1 = httpError "missing user id" StatusBadRequest ∧
    (GetUser users "abc").1 = httpError "invalid user id" StatusBadRequest ∧
    (GetUser users "9223372036854775808").1 = httpError "invalid user id" StatusBadRequest ∧
    (GetUser users "-5").1 = httpError "user id must be positive" StatusBadRequest ∧
    (GetUser users "0").1.status = StatusBadRequest :=
  ⟨(GetUser_bad_request users "").1 rfl,
   (GetUser_bad_request users "abc").2.2.1 (by decide) NumError.ErrSyntax rfl,
   (GetUser_bad_request users "9223372036854775808").2.2.1 (by decide) NumError.ErrRange rfl,
   (GetUser_bad_request users "-5").2.2.2.1 (by decide) (-5) rfl (by decide),
   (GetUser_bad_request users "0").2.2.2.2.mpr (Or.inr (Or.inr ⟨0, rfl, by decide⟩))⟩

/-! ## CreateUser -/

/-- The successful path of `CreateUser`, as a single equation. -/
theorem CreateUser_of_valid (s : Store) (user : User) (hn : TrimSpace user.Name ≠ "")
    (he : TrimSpace user.Email ≠ "") (hfresh : emailExists s user.Email = false) :
    CreateUser s (some user) =
      (⟨StatusCreated, "application/json",
          Payload.json ⟨(len s : Int) + 1, user.Name, user.Email⟩⟩,
        s.insert ((len s : Int) + 1) ⟨(len s : Int) + 1, user.Name, user.Email⟩) := by
  simp only [CreateUser, if_neg hn, if_neg he, hfresh, Bool.false_eq_true, if_false]

/-- The duplicate-email path of `CreateUser`, as a single equation. -/
theorem CreateUser_of_duplicate (s : Store) (user : User) (hn : TrimSpace user.Name ≠ "")
    (he : TrimSpace user.Email ≠ "") (hdup : emailExists s user.Email = true) :
    CreateUser s (some user) = (httpError "email already exists" StatusConflict, s) := by
  simp only [CreateUser, if_neg hn, if_neg he, hdup, if_true]

/-- C3: for every store and every decoded body whose name and email are non-blank
after trimming and whose email is the email of no stored user, `CreateUser` answers
201 with the user `{ID = len(store) + 1, Name, Email as supplied}`, and the store
afterwards is the store before with that user inserted under that ID: the new key
maps to the new user and every other key is as before. -/
theorem CreateUser_created (s : Store) (user : User) (hn : TrimSpace user.Name ≠ "")
    (he : TrimSpace user.Email ≠ "")
    (hfresh : ∀ k u, s.lookup k = some u → u.Email ≠ user.Email) :
    (CreateUser s (some user)).1 =
      ⟨StatusCreated, "application/json",
        Payload.json ⟨(len s : Int) + 1, user.Name, user.Email⟩⟩ ∧
    (CreateUser s (some user)).2 =
      s.insert ((len s : Int) + 1) ⟨(len s : Int) + 1, user.Name, user.Email⟩ ∧
    (CreateUser s (some user)).2.lookup ((len s : Int) + 1) =
      some ⟨(len s : Int) + 1, user.Name, user.Email⟩ ∧
    ∀ k, k ≠ (len s : Int) + 1 → (CreateUser s (some user)).2.lookup k = s.lookup k := by
  rw [CreateUser_of_valid s user hn he ((emailExists_eq_false_iff s _).mpr hfresh)]
  refine ⟨rfl, rfl, AList.lookup_insert s, ?_⟩
  intro k hk
  exact AList.lookup_insert_ne hk

/-- C3 on the seed store: creating Carl gives 201 with ID 3, name and email as sent. -/
theorem CreateUser_created_witness :
    TrimSpace "Carl" ≠ "" ∧ TrimSpace "carl@x.com" ≠ "" ∧
    (CreateUser users (some ⟨0, "Carl", "carl@x.com"⟩)).1 =
      ⟨StatusCreated, "application/json", Payload.json ⟨3, "Carl", "carl@x.com"⟩⟩ :=
  ⟨by decide, by decide,
    (CreateUser_created users ⟨0, "Carl", "carl@x.com"⟩ (by decide) (by decide)
      ((emailExists_eq_false_iff users "carl@x.com").mp (by decide))).1⟩

/-- C4: `CreateUser` answers 400 "invalid request body" when decoding fails; else 400
"name is required" when the trimmed name is empty, whatever the email and the store
are; else 400 "email is required" when the trimmed email is empty, whatever the store
is.  None of these consults the stored emails, so each precedes the duplicate check. -/
theorem CreateUser_bad_request (s : Store) :
    (CreateUser s none).1 = httpError "invalid request body" StatusBadRequest ∧
    (∀ user : User, TrimSpace user.Name = "" →
      (CreateUser s (some user)).1 = httpError "name is required" StatusBadRequest) ∧
    (∀ user : User, TrimSpace user.Name ≠ "" → TrimSpace user.Email = "" →
      (CreateUser s (some user)).1 = httpError "email is required" StatusBadRequest) := by
  refine ⟨rfl, ?_, ?_⟩
  · intro user hn
    simp only [CreateUser, if_pos hn]
  · intro user hn he
    simp only [CreateUser, if_neg hn, if_pos he]

/-- C4 on the seed store: a blank name together with an email that is already stored
gives 400 "name is required", not 409; a blank email gives 400 "email is required". -/
theorem CreateUser_bad_request_witness :
    emailExists users "alice@example.com" = true ∧
    (CreateUser users (some ⟨0, " \t", "alice@example.com"⟩)).1 =
      httpError "name is required" StatusBadRequest ∧
    (CreateUser users (some ⟨0, "Carl", "  "⟩)).1 =
      httpError "email is required" StatusBadRequest :=
  ⟨by decide,
   (CreateUser_bad_request users).2.1 ⟨0, " \t", "alice@example.com"⟩ (by decide),
   (CreateUser_bad_request users).2.2 ⟨0, "Carl", "  "⟩ (by decide) (by decide)⟩

/-- C5: for every store and every decoded body with non-blank trimmed name and email,
`CreateUser` answers 409 exactly when some stored user has an email equal, as a
string, to the supplied one, and answers 201 exactly when none has. -/
theorem CreateUser_conflict_iff (s : Store) (user : User) (hn : TrimSpace user.Name ≠ "")
    (he : TrimSpace user.Email ≠ "") :
    ((CreateUser s (some user)).1.status = StatusConflict ↔
      ∃ k u, s.lookup k = some u ∧ u.Email = user.Email) ∧
    ((CreateUser s (some user)).1.status = StatusCreated ↔
      ¬ ∃ k u, s.lookup k = some u ∧ u.Email = user.Email) := by
  rw [← emailExists_iff]
  cases h : emailExists s user.Email with
  | false =>
    rw [CreateUser_of_valid s user hn he h]
    simp [StatusCreated, StatusConflict]
  | true =>
    rw [CreateUser_of_duplicate s user hn he h]
    simp [httpError, StatusCreated, StatusConflict]

/-- C5 on the seed store: an email that differs from Alice's only in letter case, or
only by a leading blank, is no duplicate and is accepted with 201; Alice's own email
is answered 409. -/
theorem CreateUser_conflict_iff_witness :
    (CreateUser users (some ⟨0, "Al", "ALICE@example.com"⟩)).1.status = StatusCreated ∧
    (CreateUser users (some ⟨0, "Al", " alice@example.com"⟩)).1.status = StatusCreated ∧
    (CreateUser users (some ⟨0, "Al", "alice@example.com"⟩)).1.status = StatusConflict :=
  ⟨(CreateUser_conflict_iff users ⟨0, "Al", "ALICE@example.com"⟩ (by decide) (by decide)).2.mpr
      (fun h => absurd ((emailExists_iff users _).mpr h) (by decide)),
   (CreateUser_conflict_iff users ⟨0, "Al", " alice@example.com"⟩ (by decide) (by decide)).2.mpr
      (fun h => absurd ((emailExists_iff users _).mpr h) (by decide)),
   (CreateUser_conflict_iff users ⟨0, "Al", "alice@example.com"⟩ (by decide) (by decide)).1.mpr
      ⟨1, ⟨1, "Alice", "alice@example.com"⟩, by decide, rfl⟩⟩

/-! ## Case analysis of the handlers, and what they do to the store -/

/-- Every run of `CreateUser` either fails with 400 or 409 and returns the store it
was given, or is a run on a body that passed all four checks. -/
theorem CreateUser_cases (s : Store) (decoded : Option User) :
    (∃ msg code, (code = StatusBadRequest ∨ code = StatusConflict) ∧
      CreateUser s decoded = (httpError msg code, s)) ∨
    (∃ user, decoded = some user ∧ TrimSpace user.Name ≠ "" ∧ TrimSpace user.Email ≠ "" ∧
      emailExists s user.Email = false) := by
  cases decoded with
  | none => exact Or.inl ⟨_, _, Or.inl rfl, rfl⟩
  | some user =>
    by_cases hn : TrimSpace user.Name = ""
    · exact Or.inl ⟨"name is required", StatusBadRequest, Or.inl rfl,
        by simp only [CreateUser, if_pos hn]⟩
    · by_cases he : TrimSpace user.Email = ""
      · exact Or.inl ⟨"email is required", StatusBadRequest, Or.inl rfl,
          by simp only [CreateUser, if_neg hn, if_pos he]⟩
      · cases hdup : emailExists s user.Email with
        | true => exact Or.inl ⟨_, _, Or.inr rfl, CreateUser_of_duplicate s user hn he hdup⟩
        | false => exact Or.inr ⟨user, rfl, hn, he, hdup⟩

theorem httpError_status_ne_created (msg : String) (code : Nat)
    (h : code = StatusBadRequest ∨ code = StatusConflict) :
    (httpError msg code).status ≠ StatusCreated := by
  rcases h with rfl | rfl <;> simp [httpError, StatusBadRequest, StatusConflict, StatusCreated]

/-- A run of `CreateUser` that answers 201 is a run on a body that passed all checks. -/
theorem CreateUser_created_inv (s : Store) (decoded : Option User)
    (h : (CreateUser s decoded).1.status = StatusCreated) :
    ∃ user, decoded = some user ∧ TrimSpace user.Name ≠ "" ∧ TrimSpace user.Email ≠ "" ∧
      emailExists s user.Email = false := by
  rcases CreateUser_cases s decoded with ⟨msg, code, hc, heq⟩ | h'
  · rw [heq] at h
    exact absurd h (httpError_status_ne_created msg code hc)
  · exact h'

/-- `GetUser` hands back the store it was given. -/
theorem GetUser_snd (s : Store) (idStr : String) : (GetUser s idStr).2 = s := by
  unfold GetUser
  split
  · rfl
  · split
    · rfl
    · split
      · rfl
      · split <;> rfl

theorem len_insert_of_not_mem (s : Store) (k : Int) (u : User) (h : k ∉ s) :
    len (s.insert k u) = len s + 1 := by
  simp only [len, AList.insert_entries_of_neg h, List.length_cons]

theorem Contiguous.next_not_mem {s : Store} (h : Contiguous s) : ((len s : Int) + 1) ∉ s := by
  intro hmem
  have := (h _).mp hmem
  omega

theorem Contiguous_users : Contiguous users := by
  intro k
  have hlen : len users = 2 := by decide
  rw [hlen]
  simp only [users, AList.mem_insert, AList.not_mem_empty, or_false]
  omega

theorem Contiguous.insert_next {s : Store} (h : Contiguous s) (u : User) :
    Contiguous (s.insert ((len s : Int) + 1) u) := by
  intro k
  rw [len_insert_of_not_mem s _ u h.next_not_mem, AList.mem_insert, h k]
  push_cast
  omega

theorem Contiguous.after_serve {s : Store} (h : Contiguous s) (r : Request) :
    Contiguous (serve s r).2 := by
  cases r with
  | get idStr =>
    show Contiguous (GetUser s idStr).2
    rw [GetUser_snd]
    exact h
  | create decoded =>
    show Contiguous (CreateUser s decoded).2
    rcases CreateUser_cases s decoded with ⟨msg, code, _, heq⟩ | ⟨user, rfl, hn, he, hf⟩
    · rw [heq]
      exact h
    · rw [CreateUser_of_valid s user hn he hf]
      exact h.insert_next _

/-- Every store the process can hold has the keys `1, ..., len(store)`. -/
theorem Reachable.contiguous {s : Store} (h : Reachable s) : Contiguous s := by
  induction h with
  | init => exact Contiguous_users
  | step r _ ih => exact ih.after_serve r

theorem users_lookup {k : Int} {u : User} (h : users.lookup k = some u) :
    (k = 1 ∧ u = ⟨1, "Alice", "alice@example.com"⟩) ∨
    (k = 2 ∧ u = ⟨2, "Bob", "bob@example.com"⟩) := by
  unfold users at h
  by_cases h1 : k = 1
  · subst h1
    rw [AList.lookup_insert] at h
    exact Or.inl ⟨rfl, (Option.some.inj h).symm⟩
  · rw [AList.lookup_insert_ne h1] at h
    by_cases h2 : k = 2
    · subst h2
      rw [AList.lookup_insert] at h
      exact Or.inr ⟨rfl, (Option.some.inj h).symm⟩
    · rw [AList.lookup_insert_ne h2, AList.lookup_empty] at h
      cases h

theorem KeysMatchIDs_users : KeysMatchIDs users := by
  intro k u h
  rcases users_lookup h with ⟨rfl, rfl⟩ | ⟨rfl, rfl⟩ <;> rfl

theorem EmailsUnique_users : EmailsUnique users := by
  intro k₁ k₂ u₁ u₂ h₁ h₂ hne
  rcases users_lookup h₁ with ⟨rfl, rfl⟩ | ⟨rfl, rfl⟩ <;>
    rcases users_lookup h₂ with ⟨rfl, rfl⟩ | ⟨rfl, rfl⟩ <;>
    first
      | exact absurd rfl hne
      | decide

theorem KeysMatchIDs.insert_self {s : Store} (h : KeysMatchIDs s) (k : Int)
    (name email : String) : KeysMatchIDs (s.insert k ⟨k, name, email⟩) := by
  intro k' u hu
  by_cases hk : k' = k
  · subst hk
    rw [AList.lookup_insert] at hu
    rw [← Option.some.inj hu]
  · rw [AList.lookup_insert_ne hk] at hu
    exact h k' u hu

theorem EmailsUnique.insert_fresh {s : Store} (h : EmailsUnique s) (k : Int) (u : User)
    (hf : emailExists s u.Email = false) : EmailsUnique (s.insert k u) := by
  have hfresh := (emailExists_eq_false_iff s u.Email).mp hf
  intro k₁ k₂ u₁ u₂ h₁ h₂ hne
  by_cases hk₁ : k₁ = k
  · subst hk₁
    rw [AList.lookup_insert] at h₁
    rw [AList.lookup_insert_ne (Ne.symm hne)] at h₂
    rw [← Option.some.inj h₁]
    exact Ne.symm (hfresh k₂ u₂ h₂)
  · rw [AList.lookup_insert_ne hk₁] at h₁
    by_cases hk₂ : k₂ = k
    · subst hk₂
      rw [AList.lookup_insert] at h₂
      rw [← Option.some.inj h₂]
      exact hfresh k₁ u₁ h₁
    · rw [AList.lookup_insert_ne hk₂] at h₂
      exact h k₁ k₂ u₁ u₂ h₁ h₂ hne

/-- Both parts of the store invariant survive any request. -/
theorem invariant_after_serve {s : Store} (h : KeysMatchIDs s ∧ EmailsUnique s) (r : Request) :
    KeysMatchIDs (serve s r).2 ∧ EmailsUnique (serve s r).2 := by
  cases r with
  | get idStr =>
    show KeysMatchIDs (GetUser s idStr).2 ∧ EmailsUnique (GetUser s idStr).2
    rw [GetUser_snd]
    exact h
  | create decoded =>
    show KeysMatchIDs (CreateUser s decoded).2 ∧ EmailsUnique (CreateUser s decoded).2
    rcases CreateUser_cases s decoded with ⟨msg, code, _, heq⟩ | ⟨user, rfl, hn, he, hf⟩
    · rw [heq]
      exact h
    · rw [CreateUser_of_valid s user hn he hf]
      exact ⟨h.1.insert_self _ _ _, h.2.insert_fresh _ _ hf⟩

theorem Reachable.invariant {s : Store} (h : Reachable s) : KeysMatchIDs s ∧ EmailsUnique s := by
  induction h with
  | init => exact ⟨KeysMatchIDs_users, EmailsUnique_users⟩
  | step r _ ih => exact invariant_after_serve ih r

theorem Itoa_ne_empty (n : Int) (h0 : 0 ≤ n) : Itoa n ≠ "" := by
  obtain ⟨m, rfl⟩ := Int.eq_ofNat_of_zero_le h0
  exact (repr_spec m).1

/-! ## CreateUser and GetUser together -/

/-- C6: create-then-get round trip.  For every store and every body for which
`CreateUser` answers 201 with a user `u` (whose `ID`, being a Go `int`, is at most
`maxInt`), `GetUser` on the resulting store with the decimal rendering of `u.ID`
answers 200 with exactly `u`. -/
theorem CreateUser_then_GetUser (s : Store) (decoded : Option User) (u : User)
    (hst : (CreateUser s decoded).1.status = StatusCreated)
    (hu : (CreateUser s decoded).1.payload = Payload.json u)
    (hfit : u.ID ≤ maxInt) :
    (GetUser (CreateUser s decoded).2 (Itoa u.ID)).1 =
      ⟨StatusOK, "application/json", Payload.json u⟩ := by
  obtain ⟨user, rfl, hn, he, hf⟩ := CreateUser_created_inv s decoded hst
  rw [CreateUser_of_valid s user hn he hf] at hu ⊢
  have hu' : u = ⟨(len s : Int) + 1, user.Name, user.Email⟩ := (Payload.json.inj hu).symm
  subst hu'
  have h0 : (0 : Int) ≤ (len s : Int) + 1 := by omega
  have hpos : ¬ ((len s : Int) + 1 ≤ 0) := by omega
  rw [GetUser_of_Atoi_ok _ _ _ (Itoa_ne_empty _ h0) (Atoi_Itoa _ h0 hfit), if_neg hpos,
    AList.lookup_insert]

/-- C6 on the seed store: creating Carl answers 201 with ID 3, whose decimal
rendering is `3`, and `GetUser` with `3` then answers 200 with Carl's record. -/
theorem CreateUser_then_GetUser_witness :
    (CreateUser users (some ⟨0, "Carl", "carl@x.com"⟩)).1 =
      ⟨StatusCreated, "application/json", Payload.json ⟨3, "Carl", "carl@x.com"⟩⟩ ∧
    Itoa 3 = "3" ∧
    (GetUser (CreateUser users (some ⟨0, "Carl", "carl@x.com"⟩)).2 "3").1 =
      ⟨StatusOK, "application/json", Payload.json ⟨3, "Carl", "carl@x.com"⟩⟩ :=
  ⟨by decide, by decide,
   CreateUser_then_GetUser users (some ⟨0, "Carl", "carl@x.com"⟩) ⟨3, "Carl", "carl@x.com"⟩
     (by decide) (by decide) (by decide)⟩

/-- C7: failure atomicity.  Whenever `CreateUser` answers anything other than 201,
the status is 400 or 409 and the store afterwards is the store before; so the store
differs from what it was only when the status is 201. -/
theorem CreateUser_failure_keeps_store (s : Store) (decoded : Option User) :
    ((CreateUser s decoded).1.status ≠ StatusCreated →
      (CreateUser s decoded).2 = s ∧
      ((CreateUser s decoded).1.status = StatusBadRequest ∨
        (CreateUser s decoded).1.status = StatusConflict)) ∧
    ((CreateUser s decoded).2 ≠ s → (CreateUser s decoded).1.status = StatusCreated) := by
  rcases CreateUser_cases s decoded with ⟨msg, code, hc, heq⟩ | ⟨user, rfl, hn, he, hf⟩
  · rw [heq]
    exact ⟨fun _ => ⟨rfl, hc⟩, fun h => absurd rfl h⟩
  · rw [CreateUser_of_valid s user hn he hf]
    exact ⟨fun h => absurd rfl h, fun _ => rfl⟩

/-- C7 on the seed store: an undecodable body, a blank name and a duplicate email
each leave the seed store as it was. -/
theorem CreateUser_failure_keeps_store_witness :
    (CreateUser users none).2 = users ∧
    (CreateUser users (some ⟨0, "", "x@y.z"⟩)).2 = users ∧
    (CreateUser users (some ⟨0, "Dana", "bob@example.com"⟩)).2 = users ∧
    (CreateUser users (some ⟨0, "Dana", "bob@example.com"⟩)).1.status = StatusConflict :=
  ⟨((CreateUser_failure_keeps_store users none).1 (by decide)).1,
   ((CreateUser_failure_keeps_store users (some ⟨0, "", "x@y.z"⟩)).1 (by decide)).1,
   ((CreateUser_failure_keeps_store users (some ⟨0, "Dana", "bob@example.com"⟩)).1
      (by decide)).1,
   by decide⟩

/-- C8: store invariant.  In every store reachable from the seed store by any finite
sequence of `GetUser` and `CreateUser` calls, every key equals the `ID` of the user
stored under it, and no two users stored under different keys have the same email. -/
theorem Reachable_store_invariant (s : Store) (h : Reachable s) :
    (∀ k u, s.lookup k = some u → u.ID = k) ∧
    (∀ k₁ k₂ u₁ u₂, s.lookup k₁ = some u₁ → s.lookup k₂ = some u₂ → k₁ ≠ k₂ →
      u₁.Email ≠ u₂.Email) :=
  h.invariant

/-- C8 after one successful create on the seed store: the three keys carry their
own IDs. -/
theorem Reachable_store_invariant_witness :
    Reachable (serve users (Request.create (some ⟨9, "Carl", "carl@x.com"⟩))).2 ∧
    (serve users (Request.create (some ⟨9, "Carl", "carl@x.com"⟩))).2.lookup 3 =
      some ⟨3, "Carl", "carl@x.com"⟩ ∧
    ∀ k u, (serve users (Request.create (some ⟨9, "Carl", "carl@x.com"⟩))).2.lookup k = some u →
      u.ID = k :=
  ⟨Reachable.step _ Reachable.init, by decide,
   (Reachable_store_invariant _ (Reachable.step _ Reachable.init)).1⟩

/-- C9: stored users are never updated or deleted.  For every reachable store and
every further request, each entry present before the request is present, with the
same user, after it; and a `CreateUser` that answers 201 stores its user under a key
that was free and so makes the store exactly one entry larger. -/
theorem Reachable_entries_kept (s : Store) (h : Reachable s) :
    (∀ (r : Request) (k : Int) (u : User), s.lookup k = some u →
      (serve s r).2.lookup k = some u) ∧
    (∀ (decoded : Option User) (u : User),
      (CreateUser s decoded).1.status = StatusCreated →
      (CreateUser s decoded).1.payload = Payload.json u →
      s.lookup u.ID = none ∧ len (CreateUser s decoded).2 = len s + 1) := by
  have hc := h.contiguous
  have hnew : s.lookup ((len s : Int) + 1) = none := AList.lookup_eq_none.mpr hc.next_not_mem
  refine ⟨?_, ?_⟩
  · intro r k u hk
    cases r with
    | get idStr =>
      show (GetUser s idStr).2.lookup k = some u
      rw [GetUser_snd]
      exact hk
    | create decoded =>
      show (CreateUser s decoded).2.lookup k = some u
      rcases CreateUser_cases s decoded with ⟨msg, code, _, heq⟩ | ⟨user, rfl, hn, he, hf⟩
      · rw [heq]
        exact hk
      · rw [CreateUser_of_valid s user hn he hf]
        have hne : k ≠ (len s : Int) + 1 := by
          rintro rfl
          rw [hnew] at hk
          cases hk
        show AList.lookup k (AList.insert _ _ s) = some u
        rw [AList.lookup_insert_ne hne]
        exact hk
  · intro decoded u hst hu
    obtain ⟨user, rfl, hn, he, hf⟩ := CreateUser_created_inv s decoded hst
    rw [CreateUser_of_valid s user hn he hf] at hu ⊢
    have hu' : u = ⟨(len s : Int) + 1, user.Name, user.Email⟩ := (Payload.json.inj hu).symm
    subst hu'
    exact ⟨hnew, len_insert_of_not_mem s _ _ hc.next_not_mem⟩

/-- C9 on the seed store: after creating Carl, Alice and Bob are still stored under
1 and 2, and the store has three entries. -/
theorem Reachable_entries_kept_witness :
    (serve users (Request.create (some ⟨0, "Carl", "carl@x.com"⟩))).2.lookup 1 =
      some ⟨1, "Alice", "alice@example.com"⟩ ∧
    (serve users (Request.create (some ⟨0, "Carl", "carl@x.com"⟩))).2.lookup 2 =
      some ⟨2, "Bob", "bob@example.com"⟩ ∧
    len (CreateUser users (some ⟨0, "Carl", "carl@x.com"⟩)).2 = len users + 1 :=
  ⟨(Reachable_entries_kept users Reachable.init).1 _ 1 _ (by decide),
   (Reachable_entries_kept users Reachable.init).1 _ 2 _ (by decide),
   ((Reachable_entries_kept users Reachable.init).2 (some ⟨0, "Carl", "carl@x.com"⟩)
      ⟨3, "Carl", "carl@x.com"⟩ (by decide) (by decide)).2⟩

/-- C10: the client-supplied id is ignored.  Two decoded bodies with the same name
and the same email and any two ids get the same response and leave the same store;
when the answer is 201 the response carries the id `len(store) + 1`. -/
theorem CreateUser_ignores_id (s : Store) (id₁ id₂ : Int) (name email : String) :
    CreateUser s (some ⟨id₁, name, email⟩) = CreateUser s (some ⟨id₂, name, email⟩) ∧
    ((CreateUser s (some ⟨id₁, name, email⟩)).1.status = StatusCreated →
      (CreateUser s (some ⟨id₁, name, email⟩)).1.payload =
        Payload.json ⟨(len s : Int) + 1, name, email⟩) := by
  refine ⟨rfl, ?_⟩
  intro hst
  obtain ⟨user, hdec, hn, he, hf⟩ := CreateUser_created_inv s _ hst
  cases hdec
  rw [CreateUser_of_valid s _ hn he hf]

/-- C10 on the seed store: the ids 77 and -4 in a body for Carl both end as id 3. -/
theorem CreateUser_ignores_id_witness :
    CreateUser users (some ⟨77, "Carl", "carl@x.com"⟩) =
      CreateUser users (some ⟨-4, "Carl", "carl@x.com"⟩) ∧
    (CreateUser users (some ⟨77, "Carl", "carl@x.com"⟩)).1.payload =
      Payload.json ⟨3, "Carl", "carl@x.com"⟩ :=
  ⟨(CreateUser_ignores_id users 77 (-4) "Carl" "carl@x.com").1,
   (CreateUser_ignores_id users 77 (-4) "Carl" "carl@x.com").2 (by decide)⟩

/-! ## Auxiliary facts about byte search -/

theorem indexByte_bounds (b : Nat) (l : List Nat) :
    -1 ≤ indexByte b l ∧ indexByte b l < (l.length : Int) := by
  induction l with
  | nil => simp [indexByte]
  | cons x xs ih =>
    obtain ⟨h1, h2⟩ := ih
    simp only [indexByte, List.length_cons, Nat.cast_add, Nat.cast_one]
    split_ifs <;> constructor <;> omega

/-- The result `i` of `indexByte` is the first position that holds `b`. -/
theorem indexByte_eq_iff (b : Nat) (l : List Nat) : ∀ i : Nat,
    indexByte b l = (i : Int) ↔ l[i]? = some b ∧ ∀ j, j < i → l[j]? ≠ some b := by
  induction l with
  | nil =>
    intro i
    constructor
    · intro h
      simp only [indexByte] at h
      omega
    · rintro ⟨h, _⟩
      simp at h
  | cons x xs ih =>
    intro i
    obtain ⟨hb1, hb2⟩ := indexByte_bounds b xs
    by_cases hx : x = b
    · simp only [indexByte, if_pos hx]
      cases i with
      | zero => simp [hx]
      | succ k =>
        constructor
        · intro h
          omega
        · rintro ⟨_, h⟩
          exact absurd (by simp [hx]) (h 0 (Nat.succ_pos k))
    · simp only [indexByte, if_neg hx]
      cases i with
      | zero =>
        constructor
        · intro h
          split_ifs at h
          all_goals omega
        · rintro ⟨h, _⟩
          exact absurd (by simpa using h) hx
      | succ k =>
        have hk := ih k
        simp only [List.getElem?_cons_succ]
        constructor
        · intro h
          have hr : indexByte b xs = (k : Int) := by
            split_ifs at h
            all_goals (push_cast at h; omega)
          obtain ⟨h1, h2⟩ := hk.mp hr
          refine ⟨h1, ?_⟩
          intro j hj
          cases j with
          | zero => simpa using hx
          | succ j' =>
            simp only [List.getElem?_cons_succ]
            exact h2 j' (by omega)
        · rintro ⟨h1, h2⟩
          have hr : indexByte b xs = (k : Int) := by
            apply hk.mpr
            refine ⟨h1, ?_⟩
            intro j hj
            have := h2 (j + 1) (by omega)
            simpa only [List.getElem?_cons_succ] using this
          rw [hr]
          split_ifs <;> push_cast <;> omega

theorem lastIndexByte_bounds (b : Nat) (l : List Nat) :
    -1 ≤ lastIndexByte b l ∧ lastIndexByte b l < (l.length : Int) := by
  induction l with
  | nil => simp [lastIndexByte]
  | cons x xs ih =>
    obtain ⟨h1, h2⟩ := ih
    simp only [lastIndexByte, List.length_cons, Nat.cast_add, Nat.cast_one]
    split_ifs <;> constructor <;> omega

/-- A list that holds `b` somewhere has a last position of `b`. -/
theorem lastIndexByte_nonneg (b : Nat) (l : List Nat) : ∀ i : Nat, l[i]? = some b →
    0 ≤ lastIndexByte b l := by
  induction l with
  | nil => intro i h; simp at h
  | cons x xs ih =>
    intro i h
    obtain ⟨hb1, hb2⟩ := lastIndexByte_bounds b xs
    simp only [lastIndexByte]
    cases i with
    | zero =>
      have hx : x = b := by simpa using h
      split_ifs <;> omega
    | succ k =>
      have := ih k (by simpa only [List.getElem?_cons_succ] using h)
      rw [if_pos this]
      omega

/-- The result `i` of `lastIndexByte` holds `b`, and no later position does. -/
theorem lastIndexByte_spec (b : Nat) (l : List Nat) : ∀ i : Nat,
    lastIndexByte b l = (i : Int) → l[i]? = some b ∧ ∀ j, i < j → l[j]? ≠ some b := by
  induction l with
  | nil =>
    intro i h
    simp only [lastIndexByte] at h
    omega
  | cons x xs ih =>
    intro i h
    simp only [lastIndexByte] at h
    by_cases hr : 0 ≤ lastIndexByte b xs
    · rw [if_pos hr] at h
      cases i with
      | zero => omega
      | succ k =>
        obtain ⟨h1, h2⟩ := ih k (by push_cast at h; omega)
        refine ⟨by simpa only [List.getElem?_cons_succ] using h1, ?_⟩
        intro j hj
        cases j with
        | zero => omega
        | succ j' =>
          simp only [List.getElem?_cons_succ]
          exact h2 j' (by omega)
    · rw [if_neg hr] at h
      have hnone : ∀ j, xs[j]? ≠ some b := fun j hj => hr (lastIndexByte_nonneg b xs j hj)
      by_cases hx : x = b
      · rw [if_pos hx] at h
        have hi : i = 0 := by omega
        subst hi
        refine ⟨by simp [hx], ?_⟩
        intro j hj
        cases j with
        | zero => omega
        | succ j' =>
          simp only [List.getElem?_cons_succ]
          exact hnone j'
      · rw [if_neg hx] at h
        omega

/-! ## ValidateEmail -/

/-- The value of `ValidateEmail`, in terms of the three numbers it computes. -/
theorem ValidateEmail_eq_true_iff (e : String) :
    ValidateEmail e = true ↔
      3 ≤ strLen e ∧ 1 ≤ Index e '@' ∧ Index e '@' + 2 ≤ LastIndex e '.' ∧
      LastIndex e '.' < strLen e - 1 := by
  unfold ValidateEmail
  simp only []
  split_ifs <;> simp <;> omega

theorem ValidateEmailNoLenGuard_eq_true_iff (e : String) :
    ValidateEmailNoLenGuard e = true ↔
      1 ≤ Index e '@' ∧ Index e '@' + 2 ≤ LastIndex e '.' ∧
      LastIndex e '.' < strLen e - 1 := by
  unfold ValidateEmailNoLenGuard
  simp only []
  split_ifs <;> simp <;> omega

/-- C13: `ValidateEmail` accepts exactly the strings of at least 3 bytes that have a
first `@` at some index `a ≥ 1`, a `.` at some index `≥ a + 2`, and a last byte that
is not `.` (so the last `.` is not the final character).  The sample inputs of
the specification evaluate as stated. -/
theorem ValidateEmail_iff :
    (∀ e : String, ValidateEmail e = true ↔
      3 ≤ (bytes e).length ∧
      (∃ a : Nat, 1 ≤ a ∧ (bytes e)[a]? = some '@'.toNat ∧
        (∀ j, j < a → (bytes e)[j]? ≠ some '@'.toNat) ∧
        ∃ d : Nat, a + 2 ≤ d ∧ (bytes e)[d]? = some '.'.toNat) ∧
      (bytes e)[(bytes e).length - 1]? ≠ some '.'.toNat) ∧
    ValidateEmail "a@b.c" = true ∧ ValidateEmail "" = false ∧ ValidateEmail "ab" = false ∧
    ValidateEmail "abc" = false ∧ ValidateEmail "@b.c" = false ∧
    ValidateEmail "a@bc" = false ∧ ValidateEmail "a@b." = false ∧
    ValidateEmail "a@.c" = false := by
  refine ⟨?_, by decide, by decide, by decide, by decide, by decide, by decide, by decide,
    by decide⟩
  intro e
  rw [ValidateEmail_eq_true_iff]
  simp only [strLen, Index, LastIndex]
  obtain ⟨ha1, ha2⟩ := indexByte_bounds '@'.toNat (bytes e)
  obtain ⟨hd1, hd2⟩ := lastIndexByte_bounds '.'.toNat (bytes e)
  constructor
  · rintro ⟨h3, ha, hd, hl⟩
    obtain ⟨a, hA⟩ := Int.eq_ofNat_of_zero_le (show 0 ≤ indexByte '@'.toNat (bytes e) by omega)
    obtain ⟨d, hD⟩ := Int.eq_ofNat_of_zero_le
      (show 0 ≤ lastIndexByte '.'.toNat (bytes e) by omega)
    obtain ⟨hat, hfirst⟩ := (indexByte_eq_iff _ _ a).mp hA
    obtain ⟨hdot, hlast⟩ := lastIndexByte_spec _ _ d hD
    refine ⟨by omega, ⟨a, by omega, hat, hfirst, d, by omega, hdot⟩, ?_⟩
    exact hlast _ (by omega)
  · rintro ⟨h3, ⟨a, ha, hat, hfirst, d, hd, hdot⟩, hend⟩
    have hA : indexByte '@'.toNat (bytes e) = (a : Int) := (indexByte_eq_iff _ _ a).mpr ⟨hat, hfirst⟩
    have h0 := lastIndexByte_nonneg _ _ d hdot
    obtain ⟨d', hD⟩ := Int.eq_ofNat_of_zero_le h0
    obtain ⟨hdot', hlast⟩ := lastIndexByte_spec _ _ d' hD
    have hle : d ≤ d' := by
      by_contra hlt
      exact hlast d (by omega) hdot
    have hne : d' ≠ (bytes e).length - 1 := by
      rintro rfl
      exact hend hdot'
    refine ⟨by omega, by omega, by omega, by omega⟩

/-- C13, the equivalence applied to `a@b.c`: five bytes, first `@` at index 1, a `.`
at index 3, last byte `c`. -/
theorem ValidateEmail_iff_witness : ValidateEmail "a@b.c" = true :=
  (ValidateEmail_iff.1 "a@b.c").mpr
    ⟨by decide, ⟨1, by decide, by decide, by decide, 3, by decide, by decide⟩, by decide⟩

/-- C15: `ValidateEmail` is permissive.  It accepts `a@b@c.d`, which has two `@`,
and `a@b !.c`, which has a blank and a `!` after the `@`; and on any two strings
with the same length, the same index of the first `@` and the same index of the
last `.` it returns the same result. -/
theorem ValidateEmail_permissive :
    ("a@b@c.d".data.count '@' = 2 ∧ ValidateEmail "a@b@c.d" = true) ∧
    (' ' ∈ "a@b !.c".data ∧ '!' ∈ "a@b !.c".data ∧ ValidateEmail "a@b !.c" = true) ∧
    ∀ e₁ e₂ : String, strLen e₁ = strLen e₂ → Index e₁ '@' = Index e₂ '@' →
      LastIndex e₁ '.' = LastIndex e₂ '.' → ValidateEmail e₁ = ValidateEmail e₂ := by
  refine ⟨by decide, by decide, ?_⟩
  intro e₁ e₂ hl ha hd
  simp only [ValidateEmail, hl, ha, hd]

/-- C15 on two strings that differ in every letter but agree on length (5), first
`@` (index 1) and last `.` (index 3). -/
theorem ValidateEmail_permissive_witness :
    ValidateEmail "a@b.c" = ValidateEmail "x@y.z" :=
  ValidateEmail_permissive.2.2 "a@b.c" "x@y.z" (by decide) (by decide) (by decide)

/-- C18: every string `ValidateEmail` accepts has at least 5 bytes, at least one
before the first `@`, at least one between the first `@` and the last `.`, and at
least one after the last `.`; and `ValidateEmail` without its `len(email) < 3`
guard returns the same result on every string. -/
theorem ValidateEmail_len_guard_redundant (e : String) :
    (ValidateEmail e = true →
      5 ≤ strLen e ∧ 1 ≤ Index e '@' ∧ 1 ≤ LastIndex e '.' - Index e '@' - 1 ∧
      1 ≤ strLen e - LastIndex e '.' - 1) ∧
    ValidateEmailNoLenGuard e = ValidateEmail e := by
  constructor
  · intro h
    obtain ⟨h3, ha, hd, hl⟩ := (ValidateEmail_eq_true_iff e).mp h
    refine ⟨by omega, ha, by omega, by omega⟩
  · rw [Bool.eq_iff_iff, ValidateEmailNoLenGuard_eq_true_iff, ValidateEmail_eq_true_iff]
    constructor
    · rintro ⟨ha, hd, hl⟩
      exact ⟨by omega, ha, hd, hl⟩
    · rintro ⟨_, ha, hd, hl⟩
      exact ⟨ha, hd, hl⟩

/-- C18 on `a@b.c`, an accepted string of exactly 5 bytes. -/
theorem ValidateEmail_len_guard_redundant_witness :
    strLen "a@b.c" = 5 ∧ Index "a@b.c" '@' = 1 ∧ LastIndex "a@b.c" '.' = 3 ∧
    (5 ≤ strLen "a@b.c" ∧ 1 ≤ Index "a@b.c" '@' ∧
      1 ≤ LastIndex "a@b.c" '.' - Index "a@b.c" '@' - 1 ∧
      1 ≤ strLen "a@b.c" - LastIndex "a@b.c" '.' - 1) :=
  ⟨by decide, by decide, by decide, (ValidateEmail_len_guard_redundant "a@b.c").1 (by decide)⟩

/-! ## FormatUserDisplay -/

theorem Sprintf_no_name (k : Int) :
    Sprintf "User #%d (no name)" [Arg.int k] = "User #" ++ Itoa k ++ " (no name)" := by
  apply String.ext
  simp [Sprintf, doPrintf, formatVerb, String.singleton]

theorem Sprintf_name_email (name email : String) :
    Sprintf "%s <%s>" [Arg.str name, Arg.str email] = name ++ " <" ++ email ++ ">" := by
  apply String.ext
  simp [Sprintf, doPrintf, formatVerb, String.singleton]

/-- C14: `FormatUserDisplay u` is `User #` followed by the decimal `u.ID` and
` (no name)` when `u.Name` is exactly the empty string, and otherwise `u.Name`,
a blank, and `u.Email` in angle brackets; a name of white space only is not empty
and takes the second form.  The two samples of the specification evaluate as
stated. -/
theorem FormatUserDisplay_spec (u : User) :
    (u.Name = "" → FormatUserDisplay u = "User #" ++ Itoa u.ID ++ " (no name)") ∧
    (u.Name ≠ "" → FormatUserDisplay u = u.Name ++ " <" ++ u.Email ++ ">") ∧
    (TrimSpace "  " = "" ∧ FormatUserDisplay ⟨7, "  ", "x@y.z"⟩ = "   <x@y.z>") ∧
    FormatUserDisplay ⟨5, "", "x@y.z"⟩ = "User #5 (no name)" ∧
    FormatUserDisplay ⟨1, "Alice", "alice@example.com"⟩ = "Alice <alice@example.com>" := by
  refine ⟨?_, ?_, by decide, by decide, by decide⟩
  · intro h
    rw [FormatUserDisplay, if_pos h, Sprintf_no_name]
  · intro h
    rw [FormatUserDisplay, if_neg h, Sprintf_name_email]

/-- C14 on a negative id and on a name that is a single blank. -/
theorem FormatUserDisplay_spec_witness :
    FormatUserDisplay ⟨-5, "", "x@y.z"⟩ = "User #-5 (no name)" ∧
    FormatUserDisplay ⟨1, " ", "a@b.c"⟩ = "  <a@b.c>" :=
  ⟨(FormatUserDisplay_spec ⟨-5, "", "x@y.z"⟩).1 rfl,
   (FormatUserDisplay_spec ⟨1, " ", "a@b.c"⟩).2.1 (by decide)⟩

/-! ## Further properties of the handlers -/

theorem Atoi_ok_ne_empty {idStr : String} {n : Int} (h : Atoi idStr = Except.ok n) :
    idStr ≠ "" := by
  rintro rfl
  have h0 : Atoi "" = Except.error NumError.ErrSyntax := rfl
  rw [h0] at h
  cases h

theorem emailExists_insert_self (s : Store) (k : Int) (u : User) :
    emailExists (s.insert k u) u.Email = true :=
  (emailExists_iff _ _).mpr ⟨k, u, AList.lookup_insert s, rfl⟩

/-- Every store the process can hold has at least the two seed entries. -/
theorem Reachable.two_le_len {s : Store} (h : Reachable s) : 2 ≤ len s := by
  induction h with
  | init => decide
  | @step s r hs ih =>
    cases r with
    | get idStr =>
      show 2 ≤ len (GetUser s idStr).2
      rw [GetUser_snd]
      exact ih
    | create decoded =>
      show 2 ≤ len (CreateUser s decoded).2
      rcases CreateUser_cases s decoded with ⟨msg, code, _, heq⟩ | ⟨user, rfl, hn, he, hf⟩
      · rw [heq]
        exact ih
      · rw [CreateUser_of_valid s user hn he hf]
        show 2 ≤ len (AList.insert _ _ s)
        rw [len_insert_of_not_mem s _ _ hs.contiguous.next_not_mem]
        omega

/-- C11: `CreateUser` is not idempotent.  After a call that answers 201 with a user
`u`, a second call with the same name and email (and any id) answers 409 "email
already exists" and returns the store as the first call left it; the same holds
for a second call with that email and any other non-blank name. -/
theorem CreateUser_twice_conflict (s : Store) (decoded : Option User) (u : User)
    (hst : (CreateUser s decoded).1.status = StatusCreated)
    (hu : (CreateUser s decoded).1.payload = Payload.json u) :
    (∀ id₂ : Int, CreateUser (CreateUser s decoded).2 (some ⟨id₂, u.Name, u.Email⟩) =
      (httpError "email already exists" StatusConflict, (CreateUser s decoded).2)) ∧
    (∀ second : User, second.Email = u.Email → TrimSpace second.Name ≠ "" →
      CreateUser (CreateUser s decoded).2 (some second) =
        (httpError "email already exists" StatusConflict, (CreateUser s decoded).2)) := by
  obtain ⟨user, rfl, hn, he, hf⟩ := CreateUser_created_inv s decoded hst
  rw [CreateUser_of_valid s user hn he hf] at hu ⊢
  have hu' : u = ⟨(len s : Int) + 1, user.Name, user.Email⟩ := (Payload.json.inj hu).symm
  subst hu'
  refine ⟨?_, ?_⟩
  · intro id₂
    exact CreateUser_of_duplicate _ ⟨id₂, user.Name, user.Email⟩ hn he
      (emailExists_insert_self s _ _)
  · intro second hemail hname
    have he2 : TrimSpace second.Email ≠ "" := by rw [hemail]; exact he
    have hdup : emailExists (s.insert ((len s : Int) + 1)
        ⟨(len s : Int) + 1, user.Name, user.Email⟩) second.Email = true := by
      rw [hemail]
      exact emailExists_insert_self s _ _
    exact CreateUser_of_duplicate _ second hname he2 hdup

/-- C11 on the seed store: after Carl is created with `carl@x.com`, creating Dana
with `carl@x.com` answers 409, and so does creating Carl again. -/
theorem CreateUser_twice_conflict_witness :
    (CreateUser (CreateUser users (some ⟨0, "Carl", "carl@x.com"⟩)).2
      (some ⟨0, "Dana", "carl@x.com"⟩)).1 = httpError "email already exists" StatusConflict ∧
    (CreateUser (CreateUser users (some ⟨0, "Carl", "carl@x.com"⟩)).2
      (some ⟨0, "Carl", "carl@x.com"⟩)).1.status = 409 :=
  ⟨congrArg Prod.fst
    ((CreateUser_twice_conflict users (some ⟨0, "Carl", "carl@x.com"⟩)
      ⟨3, "Carl", "carl@x.com"⟩ (by decide) (by decide)).2
        ⟨0, "Dana", "carl@x.com"⟩ rfl (by decide)),
   by decide⟩

/-- C12: `GetUser` never mutates the store: for every store and every ID string the
store after the call is the store before it, whatever the status. -/
theorem GetUser_keeps_store (s : Store) (idStr : String) : (GetUser s idStr).2 = s :=
  GetUser_snd s idStr

/-- C16: `ValidateEmail` is no part of `CreateUser`.  Two bodies with the same name
whose emails agree on what `CreateUser` inspects (blank after trimming or not,
already stored or not) get the same status, whether `ValidateEmail` accepts one,
both or neither; and on the seed store the body `{Carl, x}`, whose email
`ValidateEmail` rejects, is answered 201 and stored under key 3. -/
theorem CreateUser_ignores_ValidateEmail :
    (∀ (s : Store) (id₁ id₂ : Int) (name e₁ e₂ : String),
      (TrimSpace e₁ = "" ↔ TrimSpace e₂ = "") → emailExists s e₁ = emailExists s e₂ →
      (CreateUser s (some ⟨id₁, name, e₁⟩)).1.status =
        (CreateUser s (some ⟨id₂, name, e₂⟩)).1.status) ∧
    (ValidateEmail "x" = false ∧
      (CreateUser users (some ⟨0, "Carl", "x"⟩)).1 =
        ⟨StatusCreated, "application/json", Payload.json ⟨3, "Carl", "x"⟩⟩ ∧
      (CreateUser users (some ⟨0, "Carl", "x"⟩)).2.lookup 3 = some ⟨3, "Carl", "x"⟩) ∧
    (ValidateEmail "alice@example.com" = true ∧
      (CreateUser users (some ⟨0, "Carl", "alice@example.com"⟩)).1.status = StatusConflict) := by
  refine ⟨?_, by decide, by decide⟩
  intro s id₁ id₂ name e₁ e₂ hblank hex
  by_cases hn : TrimSpace name = ""
  · simp only [CreateUser, if_pos hn]
  · by_cases he : TrimSpace e₁ = ""
    · simp only [CreateUser, if_neg hn, if_pos he, if_pos (hblank.mp he)]
    · have he2 : TrimSpace e₂ ≠ "" := fun h => he (hblank.mpr h)
      simp only [CreateUser, if_neg hn, if_neg he, if_neg he2, hex]
      cases emailExists s e₂ <;> rfl

/-- C16 on the seed store: `x` (rejected by `ValidateEmail`) and `carl@x.com`
(accepted) are both non-blank and not stored, and both bodies get the same status. -/
theorem CreateUser_ignores_ValidateEmail_witness :
    ValidateEmail "x" = false ∧ ValidateEmail "carl@x.com" = true ∧
    (CreateUser users (some ⟨0, "Carl", "x"⟩)).1.status =
      (CreateUser users (some ⟨0, "Carl", "carl@x.com"⟩)).1.status :=
  ⟨by decide, by decide,
   CreateUser_ignores_ValidateEmail.1 users 0 0 "Carl" "x" "carl@x.com" (by decide) (by decide)⟩

/-- C17: key contiguity.  In every store reachable from the seed store the keys are
exactly `1, ..., n` with `n` the number of entries, so the id `n + 1` that a
successful `CreateUser` assigns is positive, is no key yet, and is the largest key
plus one (`n` is a key and no key exceeds it).  On the store `{2: Bob}`, whose keys
are not `1, ..., n`, a successful `CreateUser` is given id 2 and overwrites Bob. -/
theorem Reachable_keys_contiguous :
    (∀ s : Store, Reachable s →
      (∀ k : Int, k ∈ s ↔ 1 ≤ k ∧ k ≤ (len s : Int)) ∧
      (∀ (decoded : Option User) (u : User),
        (CreateUser s decoded).1.status = StatusCreated →
        (CreateUser s decoded).1.payload = Payload.json u →
        u.ID = (len s : Int) + 1 ∧ 0 < u.ID ∧ u.ID ∉ s ∧
        (u.ID - 1) ∈ s ∧ ∀ k : Int, k ∈ s → k ≤ u.ID - 1)) ∧
    (¬ (∀ k : Int, k ∈ bobOnly ↔ 1 ≤ k ∧ k ≤ (len bobOnly : Int)) ∧
      bobOnly.lookup 2 = some ⟨2, "Bob", "bob@example.com"⟩ ∧
      (CreateUser bobOnly (some ⟨0, "Carl", "carl@x.com"⟩)).1 =
        ⟨StatusCreated, "application/json", Payload.json ⟨2, "Carl", "carl@x.com"⟩⟩ ∧
      (CreateUser bobOnly (some ⟨0, "Carl", "carl@x.com"⟩)).2.lookup 2 =
        some ⟨2, "Carl", "carl@x.com"⟩ ∧
      len (CreateUser bobOnly (some ⟨0, "Carl", "carl@x.com"⟩)).2 = 1) := by
  refine ⟨?_, ?_, by decide, by decide, by decide, by decide⟩
  · intro s hs
    have hc := hs.contiguous
    have h2 := hs.two_le_len
    refine ⟨hc, ?_⟩
    intro decoded u hst hu
    obtain ⟨user, rfl, hn, he, hf⟩ := CreateUser_created_inv s decoded hst
    rw [CreateUser_of_valid s user hn he hf] at hu
    have hu' : u = ⟨(len s : Int) + 1, user.Name, user.Email⟩ := (Payload.json.inj hu).symm
    subst hu'
    refine ⟨rfl, ?_, hc.next_not_mem, ?_, ?_⟩
    · show (0 : Int) < (len s : Int) + 1
      omega
    · show ((len s : Int) + 1 - 1) ∈ s
      rw [hc]
      omega
    · intro k hk
      show k ≤ (len s : Int) + 1 - 1
      have := (hc k).mp hk
      omega
  · intro h
    have h1 : (1 : Int) ∈ bobOnly := (h 1).mpr (by decide)
    revert h1
    decide

/-- C17 on the seed store: its keys are `1, 2`, and creating Carl assigns id 3, which
is no key of the seed store while 2 is. -/
theorem Reachable_keys_contiguous_witness :
    (∀ k : Int, k ∈ users ↔ 1 ≤ k ∧ k ≤ (len users : Int)) ∧
    ((3 : Int) ∉ users ∧ (2 : Int) ∈ users) :=
  ⟨(Reachable_keys_contiguous.1 users Reachable.init).1,
   by decide⟩

/-- C19: `GetUser` sees the ID string only through the integer it parses to: two ID
strings that `Atoi` parses to the same integer get the same response on every
store.  On the seed store `+1` and `001` get the 200 response of `1`, and `-0`
is answered 400 "user id must be positive". -/
theorem GetUser_depends_on_parsed_int :
    (∀ (s : Store) (idStr₁ idStr₂ : String) (n : Int),
      Atoi idStr₁ = Except.ok n → Atoi idStr₂ = Except.ok n →
      GetUser s idStr₁ = GetUser s idStr₂) ∧
    (GetUser users "1").1 =
      ⟨StatusOK, "application/json", Payload.json ⟨1, "Alice", "alice@example.com"⟩⟩ ∧
    (GetUser users "+1").1 = (GetUser users "1").1 ∧
    (GetUser users "001").1 = (GetUser users "1").1 ∧
    (GetUser users "-0").1 = httpError "user id must be positive" StatusBadRequest := by
  refine ⟨?_, by decide, by decide, by decide, by decide⟩
  intro s idStr₁ idStr₂ n h₁ h₂
  rw [GetUser_of_Atoi_ok s idStr₁ n (Atoi_ok_ne_empty h₁) h₁,
    GetUser_of_Atoi_ok s idStr₂ n (Atoi_ok_ne_empty h₂) h₂]

/-- C19 applied to `+1` and `001`, which both parse to 1. -/
theorem GetUser_depends_on_parsed_int_witness :
    Atoi "+1" = Except.ok 1 ∧ Atoi "001" = Except.ok 1 ∧
    GetUser users "+1" = GetUser users "001" :=
  ⟨rfl, rfl, GetUser_depends_on_parsed_int.1 users "+1" "001" 1 rfl rfl⟩

end Handlers
